import Mathlib

/-!
Shallow embedding of the Clash-Level-Calculator upgrade-planning engine
(`clash_level_calculator/optimizer.py`, `game_data.py`, `models.py`).

Python integers are embedded as `ℤ`, Python floats as `ℚ` (every float value
is a rational and all arithmetic appearing here is exact on the values the
tables hold), Python dicts keyed by rarity as total functions `String → ℤ`
with the code's `get(key, 0)` / `setdefault` default conventions folded in.
The economy tables themselves live in `constants.py`, which is not part of
the sources; they appear here as the fields of the `GameData` structure,
exactly as `game_data.py` wraps them.
-/

namespace Clash

/-- Embeds `models.Card`: name, rarity, level (1..16), count. -/
structure Card where
  name : String
  rarity : String
  level : ℤ
  count : ℤ
deriving Repr, DecidableEq

/-- Embeds `Card.next_level`: `None if self.level >= 16 else self.level + 1`. -/
def Card.next_level (c : Card) : Option ℤ :=
  if c.level ≥ 16 then none else some (c.level + 1)

/-- Embeds `models.Inventory`. `wild_cards` is the dict embedded as a total map. -/
structure Inventory where
  gold : ℤ
  gems : ℤ
  wild_cards : String → ℤ

/-- Embeds `models.PlayerProfile`. -/
structure PlayerProfile where
  king_level : ℤ
  xp_into_level : ℤ
deriving Repr, DecidableEq

/-- Embeds `models.PlayerData`. -/
structure PlayerData where
  profile : PlayerProfile
  inventory : Inventory
  cards : List Card

/-- Embeds `models.OptimizationSettings`. -/
structure OptimizationSettings where
  use_gems : Bool
  infinite_gold : Bool
deriving Repr, DecidableEq

/-- Embeds `models.UpgradeAction`. -/
structure UpgradeAction where
  card_name : String
  rarity : String
  from_level : ℤ
  to_level : ℤ
  gold_cost : ℤ
  card_cost : ℤ
  wild_cards_used : ℤ
  gems_used : ℤ
  xp_gained : ℤ
  efficiency_ratio : ℚ
  material_efficiency : ℚ
deriving Repr, DecidableEq

/-- Embeds `models.OptimizationResult`. -/
structure OptimizationResult where
  actions : List UpgradeAction
  total_xp_gained : ℤ
  final_profile : PlayerProfile
  final_gold : ℤ
  final_gems : ℤ
  total_gold_spent : ℤ
  total_wild_cards_used : String → ℤ
  total_gems_used : ℤ

/-- One row of `KING_XP_TABLE`: level, cumulative XP, XP to the next level
(`None` on the terminal row). -/
structure KingRow where
  level : ℤ
  cumulative : ℤ
  xp_to_next : Option ℤ
deriving Repr, DecidableEq

/-- Embeds `game_data.KingLevelProgress`. -/
structure KingLevelProgress where
  level : ℤ
  xp_into_level : ℤ
  xp_to_next : ℤ
  total_xp : ℤ
deriving Repr, DecidableEq

/-- Embeds `game_data.GameData`: the wrapper over the static economy tables of
`constants.py` (absent from the sources), kept as parameters.  Each field
embeds the corresponding table together with the accessor's default:
`gem_values` already carries `get(rarity, 0.0)`. -/
structure GameData where
  material_requirements : String → ℤ → Option ℤ
  gold_costs : ℤ → Option ℤ
  xp_rewards : ℤ → Option ℤ
  gem_values : String → ℚ
  efficiency_overrides : ℤ → Option ℚ
  king_levels : List KingRow

namespace GameData

/-- Embeds `GameData.get_material_requirement`. -/
def get_material_requirement (gd : GameData) (rarity : String) (target_level : ℤ) : Option ℤ :=
  gd.material_requirements rarity target_level

/-- Embeds `GameData.get_gold_cost`. -/
def get_gold_cost (gd : GameData) (target_level : ℤ) : Option ℤ :=
  gd.gold_costs target_level

/-- Embeds `GameData.get_xp_reward`. -/
def get_xp_reward (gd : GameData) (target_level : ℤ) : Option ℤ :=
  gd.xp_rewards target_level

/-- Embeds `GameData.get_efficiency_override`. -/
def get_efficiency_override (gd : GameData) (target_level : ℤ) : Option ℚ :=
  gd.efficiency_overrides target_level

/-- Embeds `GameData.gem_value_for_rarity` (`self.gem_values.get(rarity, 0.0)`). -/
def gem_value_for_rarity (gd : GameData) (rarity : String) : ℚ :=
  gd.gem_values rarity

/-- The `_cumulative_lookup` dict keyed by level (later rows override
earlier ones, hence the reverse search), with the `.get(level, 0)` default. -/
def cumulative_lookup (gd : GameData) (level : ℤ) : ℤ :=
  ((gd.king_levels.reverse.find? (fun r => r.level = level)).map (·.cumulative)).getD 0

/-- Embeds `GameData.total_xp_for_level`: clamp the level into `[1, max_level]`
and read the cumulative table. -/
def total_xp_for_level (gd : GameData) (level : ℤ) : ℤ :=
  let max_level := ((gd.king_levels.getLast?).map (·.level)).getD 0
  gd.cumulative_lookup (max 1 (min level max_level))

/-- The `for row ...: if total_xp >= row["cumulative"]: current_row = row
else: break` scan of `king_progress_from_total_xp`. -/
def scanRow (total_xp : ℤ) : KingRow → List KingRow → KingRow
  | cur, [] => cur
  | cur, r :: rs => if r.cumulative ≤ total_xp then scanRow total_xp r rs else cur

/-- The row `king_progress_from_total_xp` settles on (initial row is the
head of the table; an empty table would raise in Python, the dummy head is
never reached on valid tables). -/
def chosen_row (gd : GameData) (total_xp : ℤ) : KingRow :=
  scanRow total_xp (gd.king_levels.headD ⟨0, 0, none⟩) gd.king_levels

/-- Embeds `GameData.king_progress_from_total_xp`. -/
def king_progress_from_total_xp (gd : GameData) (total_xp : ℤ) : KingLevelProgress :=
  let cur := gd.chosen_row total_xp
  let xp_to_next := cur.xp_to_next.getD 0
  let raw_into := total_xp - cur.cumulative
  let xp_into_level := if xp_to_next ≠ 0 then min raw_into xp_to_next else 0
  { level := cur.level
    xp_into_level := xp_into_level
    xp_to_next := xp_to_next
    total_xp := total_xp }

end GameData

/-- Python's `round` on the exact rational value: nearest integer, ties to
the even neighbour (banker's rounding), as used in
`int(round(remaining * gem_cost_per_card))`. -/
def roundHalfEven (q : ℚ) : ℤ :=
  let n := ⌊q⌋
  let frac := q - n
  if frac < 1/2 then n
  else if 1/2 < frac then n + 1
  else if n % 2 = 0 then n else n + 1

/-- Embeds `optimizer.UpgradeCandidate`. -/
structure UpgradeCandidate where
  index : ℕ
  card : Card
  from_level : ℤ
  to_level : ℤ
  gold_cost : ℤ
  cards_required : ℤ
  cards_used : ℤ
  wild_cards_used : ℤ
  gems_used : ℤ
  xp_gained : ℤ
  efficiency_ratio : ℚ
  material_efficiency : ℚ

/-- The mutable per-run state shared by both optimizer classes: the deep
copies of `cards` and the inventory made in `__init__`, the running trace
and the running totals. -/
structure OptState where
  cards : List Card
  gold : ℤ
  gems : ℤ
  wild_cards : String → ℤ
  actions : List UpgradeAction
  gold_spent : ℤ
  wild_usage : String → ℤ
  total_gems_used : ℤ
  xp_total : ℤ

/-- The `__init__` state of either optimizer (deep copies, zeroed totals,
starting XP from the profile).  The `setdefault` loop over `CARD_RARITIES`
is the identity under the dict-as-total-map embedding. -/
def initState (gd : GameData) (player : PlayerData) : OptState :=
  { cards := player.cards
    gold := player.inventory.gold
    gems := player.inventory.gems
    wild_cards := player.inventory.wild_cards
    actions := []
    gold_spent := 0
    wild_usage := fun _ => 0
    total_gems_used := 0
    xp_total := gd.total_xp_for_level player.profile.king_level
      + player.profile.xp_into_level }

/-- Embeds `_available_wild` (identical in both classes): `max(0, wild_cards.get(rarity, 0))`. -/
def OptState.available_wild (st : OptState) (rarity : String) : ℤ :=
  max 0 (st.wild_cards rarity)

/-- Embeds `Level16Optimizer._calculate_efficiency`: table override verbatim when
present, otherwise `(gold_cost + gems_used) / (xp_gain or 1)`. -/
def Level16Optimizer.calculate_efficiency (gd : GameData)
    (target_level gold_cost xp_gain _cards_required gems_used : ℤ) : ℚ :=
  match gd.get_efficiency_override target_level with
  | some override => override
  | none =>
    ((gold_cost + gems_used : ℤ) : ℚ) / ((if xp_gain = 0 then 1 else xp_gain : ℤ) : ℚ)

/-- Embeds `MinCostToKingLevelOptimizer._calculate_cost_efficiency`:
`(gold_cost + gems_used) / (xp_gain or 1)`, never consulting overrides. -/
def MinCostToKingLevelOptimizer.calculate_cost_efficiency
    (gold_cost gems_used xp_gain : ℤ) : ℚ :=
  ((gold_cost + gems_used : ℤ) : ℚ) / ((if xp_gain = 0 then 1 else xp_gain : ℤ) : ℚ)

/-- The `gems_used` assignment of `_build_candidate`:
`int(round(remaining * gem_cost_per_card))` when a shortfall remains, else
the initial `0`. -/
def gemsUsedFor (gd : GameData) (rarity : String) (remaining2 : ℤ) : ℤ :=
  if remaining2 > 0 then
    roundHalfEven ((remaining2 : ℚ) * gd.gem_value_for_rarity rarity)
  else 0

/-- Embeds `_build_candidate`, textually identical in the two classes apart from
the efficiency function they call, which is the `eff` parameter here. -/
def buildCandidateWith (eff : ℤ → ℤ → ℤ → ℤ → ℤ → ℚ) (gd : GameData)
    (s : OptimizationSettings) (st : OptState) (index : ℕ) (card : Card) :
    Option UpgradeCandidate :=
  match card.next_level with
  | none => none
  | some next_level =>
    match gd.get_material_requirement card.rarity next_level,
        gd.get_gold_cost next_level, gd.get_xp_reward next_level with
    | some cards_required, some gold_cost, some xp_gain =>
      let cards_used := min card.count cards_required
      let remaining := cards_required - cards_used
      let wild_available := st.available_wild card.rarity
      let wild_used := min remaining wild_available
      let remaining2 := remaining - wild_used
      if remaining2 > 0 ∧ s.use_gems = false then none
      else
        let gems_used := gemsUsedFor gd card.rarity remaining2
        if s.infinite_gold = false ∧ st.gold < gold_cost then none
        else if st.gems < gems_used then none
        else some
          { index := index
            card := card
            from_level := card.level
            to_level := next_level
            gold_cost := gold_cost
            cards_required := cards_required
            cards_used := cards_used
            wild_cards_used := wild_used
            gems_used := gems_used
            xp_gained := xp_gain
            efficiency_ratio := eff next_level gold_cost xp_gain cards_required gems_used
            material_efficiency :=
              if cards_required = 0 then 0
              else ((xp_gain : ℤ) : ℚ) / ((cards_required : ℤ) : ℚ) }
    | _, _, _ => none

/-- Embeds `Level16Optimizer._build_candidate`. -/
def Level16Optimizer.build_candidate (gd : GameData) (s : OptimizationSettings)
    (st : OptState) (index : ℕ) (card : Card) : Option UpgradeCandidate :=
  buildCandidateWith (Level16Optimizer.calculate_efficiency gd) gd s st index card

/-- Embeds `MinCostToKingLevelOptimizer._build_candidate`. -/
def MinCostToKingLevelOptimizer.build_candidate (gd : GameData)
    (s : OptimizationSettings) (st : OptState) (index : ℕ) (card : Card) :
    Option UpgradeCandidate :=
  buildCandidateWith
    (fun _t gold xp _c gems =>
      MinCostToKingLevelOptimizer.calculate_cost_efficiency gold gems xp)
    gd s st index card

/-- The replacement test of `Level16Optimizer._select_candidate`: strictly
lower efficiency, or equal efficiency with strictly higher XP. -/
def Level16Optimizer.better (c b : UpgradeCandidate) : Prop :=
  c.efficiency_ratio < b.efficiency_ratio ∨
    (c.efficiency_ratio = b.efficiency_ratio ∧ b.xp_gained < c.xp_gained)

instance (c b : UpgradeCandidate) : Decidable (Level16Optimizer.better c b) := by
  unfold Level16Optimizer.better; infer_instance

/-- The replacement test of `MinCostToKingLevelOptimizer._select_best_candidate`:
lower efficiency; ties by fewer gems, then less gold, then higher XP. -/
def MinCostToKingLevelOptimizer.better (c b : UpgradeCandidate) : Prop :=
  c.efficiency_ratio < b.efficiency_ratio ∨
    (c.efficiency_ratio = b.efficiency_ratio ∧
      (c.gems_used < b.gems_used ∨
        (c.gems_used = b.gems_used ∧
          (c.gold_cost < b.gold_cost ∨
            (c.gold_cost = b.gold_cost ∧ b.xp_gained < c.xp_gained)))))

instance (c b : UpgradeCandidate) : Decidable (MinCostToKingLevelOptimizer.better c b) := by
  unfold MinCostToKingLevelOptimizer.better; infer_instance

/-- The `for index, card in enumerate(self.cards)` selection loop shared by
both `_select_candidate` variants: `build` produces this round's candidate
for an index, `better` is the replacement test. -/
def selectLoopWith (build : ℕ → Card → Option UpgradeCandidate)
    (better : UpgradeCandidate → UpgradeCandidate → Prop)
    [DecidableRel better] :
    List Card → ℕ → Option UpgradeCandidate → Option UpgradeCandidate
  | [], _, best => best
  | card :: rest, index, best =>
    let best' :=
      match build index card, best with
      | none, b => b
      | some c, none => some c
      | some c, some b => if better c b then some c else some b
    selectLoopWith build better rest (index + 1) best'

/-- Embeds `Level16Optimizer._select_candidate`. -/
def Level16Optimizer.select_candidate (gd : GameData) (s : OptimizationSettings)
    (st : OptState) : Option UpgradeCandidate :=
  selectLoopWith (Level16Optimizer.build_candidate gd s st)
    Level16Optimizer.better st.cards 0 none

/-- Embeds `MinCostToKingLevelOptimizer._select_best_candidate`. -/
def MinCostToKingLevelOptimizer.select_best_candidate (gd : GameData)
    (s : OptimizationSettings) (st : OptState) : Option UpgradeCandidate :=
  selectLoopWith (MinCostToKingLevelOptimizer.build_candidate gd s st)
    MinCostToKingLevelOptimizer.better st.cards 0 none

/-- Embeds `_commit_candidate`, textually identical in the two classes. -/
def commitCandidate (s : OptimizationSettings) (st : OptState)
    (c : UpgradeCandidate) : OptState :=
  let card := st.cards.getD c.index c.card
  let card' := { card with count := card.count - c.cards_used, level := c.to_level }
  { st with
    cards := st.cards.set c.index card'
    gold := if s.infinite_gold then st.gold else st.gold - c.gold_cost
    gems := st.gems - c.gems_used
    wild_cards := fun r =>
      if r = card.rarity then st.wild_cards r - c.wild_cards_used else st.wild_cards r
    wild_usage := fun r =>
      if r = card.rarity then st.wild_usage r + c.wild_cards_used else st.wild_usage r
    total_gems_used := st.total_gems_used + c.gems_used
    gold_spent := st.gold_spent + c.gold_cost
    xp_total := st.xp_total + c.xp_gained
    actions := st.actions ++
      [{ card_name := card.name
         rarity := card.rarity
         from_level := c.from_level
         to_level := c.to_level
         gold_cost := c.gold_cost
         card_cost := c.cards_used
         wild_cards_used := c.wild_cards_used
         gems_used := c.gems_used
         xp_gained := c.xp_gained
         efficiency_ratio := c.efficiency_ratio
         material_efficiency := c.material_efficiency }] }

/-- An upper bound on the number of commits any run can make: the total
upgrade room `Σ (16 - level)` of the card list.  Used as the fuel of the
embedded `while` loops; the termination theorem shows it is enough. -/
def cardUpgradeRoom (cards : List Card) : ℕ :=
  (cards.map (fun c => (16 - c.level).toNat)).sum

/-- The `while True` loop body of `Level16Optimizer.generate_plan`. -/
def Level16Optimizer.runLoop (gd : GameData) (s : OptimizationSettings) :
    ℕ → OptState → OptState
  | 0, st => st
  | fuel + 1, st =>
    match Level16Optimizer.select_candidate gd s st with
    | none => st
    | some c => Level16Optimizer.runLoop gd s fuel (commitCandidate s st c)

/-- Packaging of the final `OptimizationResult` shared by both
`generate_plan` methods. -/
def mkResult (gd : GameData) (st : OptState) : OptimizationResult :=
  let final_profile := gd.king_progress_from_total_xp st.xp_total
  { actions := st.actions
    total_xp_gained := (st.actions.map (·.xp_gained)).sum
    final_profile :=
      { king_level := final_profile.level
        xp_into_level := final_profile.xp_into_level }
    final_gold := st.gold
    final_gems := st.gems
    total_gold_spent := st.gold_spent
    total_wild_cards_used := st.wild_usage
    total_gems_used := st.total_gems_used }

/-- Embeds `Level16Optimizer.generate_plan`. -/
def Level16Optimizer.generate_plan (gd : GameData) (s : OptimizationSettings)
    (player : PlayerData) : OptimizationResult :=
  let st0 := initState gd player
  mkResult gd (Level16Optimizer.runLoop gd s (cardUpgradeRoom st0.cards) st0)

/-- The resolved target king level (`target_king_level` argument, default
`king_level + 1`). -/
def MinCostToKingLevelOptimizer.target_level (player : PlayerData)
    (target : Option ℤ) : ℤ :=
  target.getD (player.profile.king_level + 1)

/-- The `while self._xp_total < self._target_xp` loop of
`MinCostToKingLevelOptimizer.generate_plan`. -/
def MinCostToKingLevelOptimizer.runLoop (gd : GameData) (s : OptimizationSettings)
    (target_xp : ℤ) : ℕ → OptState → OptState
  | 0, st => st
  | fuel + 1, st =>
    if st.xp_total < target_xp then
      match MinCostToKingLevelOptimizer.select_best_candidate gd s st with
      | none => st
      | some c =>
        MinCostToKingLevelOptimizer.runLoop gd s target_xp fuel (commitCandidate s st c)
    else st

/-- Embeds `MinCostToKingLevelOptimizer.generate_plan`. -/
def MinCostToKingLevelOptimizer.generate_plan (gd : GameData)
    (s : OptimizationSettings) (player : PlayerData) (target : Option ℤ) :
    OptimizationResult :=
  let st0 := initState gd player
  let target_xp := gd.total_xp_for_level (MinCostToKingLevelOptimizer.target_level player target)
  let xp_needed := max 0 (target_xp - st0.xp_total)
  if xp_needed ≤ 0 then
    let fp := gd.king_progress_from_total_xp st0.xp_total
    { actions := []
      total_xp_gained := 0
      final_profile := { king_level := fp.level, xp_into_level := fp.xp_into_level }
      final_gold := st0.gold
      final_gems := st0.gems
      total_gold_spent := 0
      total_wild_cards_used := st0.wild_usage
      total_gems_used := 0 }
  else
    mkResult gd (MinCostToKingLevelOptimizer.runLoop gd s target_xp
      (cardUpgradeRoom st0.cards) st0)

/-- Player copy with the gem balance replaced
(`player_copy.inventory.gems = limit`). -/
def setGems (player : PlayerData) (gems : ℤ) : PlayerData :=
  { player with inventory := { player.inventory with gems := gems } }

/-- Player copy with the gold balance replaced
(`player_copy.inventory.gold = limit`). -/
def setGold (player : PlayerData) (gold : ℤ) : PlayerData :=
  { player with inventory := { player.inventory with gold := gold } }

/-- The synthetic empty result both searches return when no iteration
reaches the target (`if best_result is None` branch).  Its wild-card dict
`{rarity: 0 for rarity in CARD_RARITIES}` is the zero map here. -/
def emptyResultFor (gd : GameData) (player : PlayerData) : OptimizationResult :=
  let fp := gd.king_progress_from_total_xp
    (gd.total_xp_for_level player.profile.king_level + player.profile.xp_into_level)
  { actions := []
    total_xp_gained := 0
    final_profile := { king_level := fp.level, xp_into_level := fp.xp_into_level }
    final_gold := player.inventory.gold
    final_gems := player.inventory.gems
    total_gold_spent := 0
    total_wild_cards_used := fun _ => 0
    total_gems_used := 0 }

/-- The `while True` refinement loop of `find_min_gem_path`, fueled.  The
fuel exceeds any possible iteration count (the gem ceiling starts at
10_000_000 and strictly decreases while staying non-negative on tables with
non-negative gem rates), so the `0` branch is unreachable from the top-level
call. -/
def findMinGemLoop (player : PlayerData) (target_king_level : ℤ) (gd : GameData) :
    ℕ → ℤ → Option OptimizationResult → Option OptimizationResult
  | 0, _, best => best
  | fuel + 1, gem_limit, best =>
    let result := MinCostToKingLevelOptimizer.generate_plan gd
      { use_gems := true, infinite_gold := true }
      (setGems player gem_limit) (some target_king_level)
    if target_king_level ≤ result.final_profile.king_level then
      if result.total_gems_used = 0 then some result
      else findMinGemLoop player target_king_level gd fuel
        (result.total_gems_used - 1) (some result)
    else best

/-- Embeds `optimizer.find_min_gem_path`. -/
def find_min_gem_path (player : PlayerData) (target_king_level : ℤ)
    (gd : GameData) : OptimizationResult :=
  (findMinGemLoop player target_king_level gd 10000002 10000000 none).getD
    (emptyResultFor gd player)

/-- The `while True` refinement loop of `find_min_gold_path`, fueled
analogously. -/
def findMinGoldLoop (player : PlayerData) (target_king_level : ℤ) (gd : GameData) :
    ℕ → ℤ → Option OptimizationResult → Option OptimizationResult
  | 0, _, best => best
  | fuel + 1, gold_limit, best =>
    let result := MinCostToKingLevelOptimizer.generate_plan gd
      { use_gems := true, infinite_gold := false }
      (setGold (setGems player 10000000) gold_limit) (some target_king_level)
    if target_king_level ≤ result.final_profile.king_level then
      if result.total_gold_spent = 0 then some result
      else findMinGoldLoop player target_king_level gd fuel
        (result.total_gold_spent - 1) (some result)
    else best

/-- Embeds `optimizer.find_min_gold_path`. -/
def find_min_gold_path (player : PlayerData) (target_king_level : ℤ)
    (gd : GameData) : OptimizationResult :=
  (findMinGoldLoop player target_king_level gd 100000002 100000000 none).getD
    (emptyResultFor gd player)

/-- Modelled from the spec: `constants.CARD_RARITIES`, the fixed small
category enumeration (constants.py is not among the sources; the spec only
fixes that it is a closed enumeration). -/
def CARD_RARITIES : List String := ["Common", "Rare", "Epic", "Legendary", "Champion"]

/-- The validated-input condition of §6: levels in `[1, 16]`, counts and
balances non-negative, categories from the fixed enumeration. -/
def ValidPlayer (player : PlayerData) : Prop :=
  (∀ card ∈ player.cards,
      1 ≤ card.level ∧ card.level ≤ 16 ∧ 0 ≤ card.count ∧ card.rarity ∈ CARD_RARITIES) ∧
  0 ≤ player.inventory.gold ∧ 0 ≤ player.inventory.gems ∧
  ∀ r, 0 ≤ player.inventory.wild_cards r

/-- The state invariant of §8: levels stay in `[1, 16]`, counts and all
balances stay non-negative. -/
def StateInv (st : OptState) : Prop :=
  (∀ card ∈ st.cards, 1 ≤ card.level ∧ card.level ≤ 16 ∧ 0 ≤ card.count) ∧
  0 ≤ st.gold ∧ 0 ≤ st.gems ∧ ∀ r, 0 ≤ st.wild_cards r

/-- Every recorded action upgrades by exactly one level and never past the
cap. -/
def TraceInv (actions : List UpgradeAction) : Prop :=
  ∀ a ∈ actions, a.to_level = a.from_level + 1 ∧ a.to_level ≤ 16

/-- Concrete economy table for evaluating the embedding on closed inputs.
Its `king_levels` rows are modelled from the spec's milestone-curve
invariants (dense ascending levels, non-decreasing cumulative score
starting at 0, terminal last row); the concrete numbers of `constants.py`
are not among the sources. -/
def gdA : GameData :=
  { material_requirements := fun _ lvl => if lvl ≤ 16 then some 10 else none
    gold_costs := fun _ => some 100
    xp_rewards := fun _ => some 50
    gem_values := fun _ => 0
    efficiency_overrides := fun _ => none
    king_levels := [⟨1, 0, some 20⟩, ⟨2, 20, some 30⟩, ⟨3, 50, none⟩] }

/-- Variant of `gdA` with unit requirements and a fractional gem rate, to
exercise the currency-B rounding path. -/
def gdB : GameData :=
  { gdA with
    material_requirements := fun _ _ => some 1
    gem_values := fun _ => 5 / 2 }

/-- Unlimited-currency-A configuration. -/
def sInfGold : OptimizationSettings := { use_gems := false, infinite_gold := true }

/-- Gem-spending configuration with gold limited. -/
def sUseGems : OptimizationSettings := { use_gems := true, infinite_gold := false }

/-- One card one step below the cap, empty balances. -/
def playerA : PlayerData :=
  { profile := { king_level := 1, xp_into_level := 0 }
    inventory := { gold := 0, gems := 0, wild_cards := fun _ => 0 }
    cards := [{ name := "X", rarity := "Common", level := 15, count := 10 }] }

/-- A player already past milestone 1. -/
def playerMet : PlayerData :=
  { profile := { king_level := 2, xp_into_level := 5 }
    inventory := { gold := 123, gems := 45, wild_cards := fun _ => 0 }
    cards := [{ name := "X", rarity := "Common", level := 1, count := 0 }] }

/-- A player with no cards at all: no candidate can ever exist. -/
def playerEmpty : PlayerData :=
  { profile := { king_level := 1, xp_into_level := 0 }
    inventory := { gold := 7, gems := 3, wild_cards := fun _ => 0 }
    cards := [] }

/-- A player owning zero units of its one card, forcing a gem shortfall. -/
def playerShort : PlayerData :=
  { profile := { king_level := 1, xp_into_level := 0 }
    inventory := { gold := 100, gems := 10, wild_cards := fun _ => 0 }
    cards := [{ name := "Y", rarity := "Common", level := 1, count := 0 }] }

/-- The unique candidate `playerA` yields under the min-cost builder. -/
def bW : UpgradeCandidate :=
  { index := 0
    card := { name := "X", rarity := "Common", level := 15, count := 10 }
    from_level := 15
    to_level := 16
    gold_cost := 100
    cards_required := 10
    cards_used := 10
    wild_cards_used := 0
    gems_used := 0
    xp_gained := 50
    efficiency_ratio := MinCostToKingLevelOptimizer.calculate_cost_efficiency 100 0 50
    material_efficiency := ((50 : ℤ) : ℚ) / ((10 : ℤ) : ℚ) }

end Clash

namespace Clash

theorem roundHalfEven_nonneg {q : ℚ} (h : 0 ≤ q) : 0 ≤ roundHalfEven q := by
  have h0 : (0 : ℤ) ≤ ⌊q⌋ := Int.floor_nonneg.mpr h
  unfold roundHalfEven
  dsimp only
  split_ifs <;> omega

theorem gemsUsedFor_nonneg {gd : GameData} {rarity : String} {remaining2 : ℤ}
    (hrate : 0 ≤ gd.gem_value_for_rarity rarity) :
    0 ≤ gemsUsedFor gd rarity remaining2 := by
  unfold gemsUsedFor
  split_ifs with hr
  · refine roundHalfEven_nonneg (mul_nonneg ?_ hrate)
    exact_mod_cast le_of_lt hr
  · exact le_refl 0

theorem buildCandidateWith_facts {eff : ℤ → ℤ → ℤ → ℤ → ℤ → ℚ} {gd : GameData}
    {s : OptimizationSettings} {st : OptState} {i : ℕ} {card : Card}
    {c : UpgradeCandidate}
    (h : buildCandidateWith eff gd s st i card = some c) :
    c.index = i ∧ c.card = card ∧ c.from_level = card.level ∧
    c.to_level = card.level + 1 ∧ card.level ≤ 15 ∧
    c.cards_used ≤ card.count ∧ 0 ≤ c.wild_cards_used ∧
    c.wild_cards_used ≤ st.available_wild card.rarity ∧
    c.gems_used ≤ st.gems ∧
    (s.infinite_gold = false → c.gold_cost ≤ st.gold) ∧
    (0 ≤ gd.gem_value_for_rarity card.rarity → 0 ≤ c.gems_used) ∧
    ∃ gc, gd.get_gold_cost (card.level + 1) = some gc ∧ c.gold_cost = gc := by
  unfold buildCandidateWith Card.next_level at h
  by_cases hl : card.level ≥ 16
  · simp [hl] at h
  · rw [if_neg hl] at h
    dsimp only at h
    rcases hreq : gd.get_material_requirement card.rarity (card.level + 1) with _ | req
    · rw [hreq] at h; simp at h
    rcases hgold : gd.get_gold_cost (card.level + 1) with _ | gold
    · rw [hreq, hgold] at h; simp at h
    rcases hxp : gd.get_xp_reward (card.level + 1) with _ | xp
    · rw [hreq, hgold, hxp] at h; simp at h
    rw [hreq, hgold, hxp] at h
    dsimp only at h
    split_ifs at h with h1 h2 h3 h4
    all_goals
      rw [Option.some_inj] at h
      subst h
      push_neg at h2 h3
      refine ⟨rfl, rfl, rfl, rfl, by omega, min_le_left _ _, ?_, min_le_right _ _,
        h3, fun hfin => h2 hfin, fun hrate => gemsUsedFor_nonneg hrate, gold, rfl, rfl⟩
      exact le_min (by have := min_le_right card.count req; omega)
        (le_max_left 0 (st.wild_cards card.rarity))

theorem selectLoopWith_mem {build : ℕ → Card → Option UpgradeCandidate}
    {better : UpgradeCandidate → UpgradeCandidate → Prop} [DecidableRel better] :
    ∀ (l : List Card) (i0 : ℕ) (best : Option UpgradeCandidate) (r : UpgradeCandidate),
      selectLoopWith build better l i0 best = some r →
      best = some r ∨ ∃ j card, l.get? j = some card ∧ build (i0 + j) card = some r := by
  intro l
  induction l with
  | nil => intro i0 best r h; exact Or.inl h
  | cons card rest ih =>
    intro i0 best r h
    unfold selectLoopWith at h
    rcases ih (i0 + 1) _ r h with hb | ⟨j, card', hg, hbuild⟩
    · rcases hc : build i0 card with _ | c <;> rw [hc] at hb <;>
        rcases best with _ | b <;> dsimp only at hb
      · exact absurd hb (by simp)
      · exact Or.inl hb
      · refine Or.inr ⟨0, card, rfl, ?_⟩
        rw [Nat.add_zero, hc]; exact hb
      · by_cases hbet : better c b
        · rw [if_pos hbet] at hb
          refine Or.inr ⟨0, card, rfl, ?_⟩
          rw [Nat.add_zero, hc]; exact hb
        · rw [if_neg hbet] at hb
          exact Or.inl hb
    · refine Or.inr ⟨j + 1, card', hg, ?_⟩
      have hsh : i0 + (j + 1) = i0 + 1 + j := by omega
      rw [hsh]; exact hbuild

theorem minCostBetter_irrefl (x : UpgradeCandidate) :
    ¬ MinCostToKingLevelOptimizer.better x x := by
  unfold MinCostToKingLevelOptimizer.better
  rintro (h | ⟨-, h | ⟨-, h | ⟨-, h⟩⟩⟩) <;> exact lt_irrefl _ h

theorem minCostBetter_trans {x y z : UpgradeCandidate}
    (hxy : MinCostToKingLevelOptimizer.better x y)
    (hyz : MinCostToKingLevelOptimizer.better y z) :
    MinCostToKingLevelOptimizer.better x z := by
  unfold MinCostToKingLevelOptimizer.better at *
  rcases hxy with h1 | ⟨e1, rest1⟩ <;> rcases hyz with h2 | ⟨e2, rest2⟩
  · exact Or.inl (lt_trans h1 h2)
  · exact Or.inl (e2 ▸ h1)
  · exact Or.inl (e1 ▸ h2)
  · refine Or.inr ⟨e1.trans e2, ?_⟩
    rcases rest1 with g1 | ⟨ge1, rest1⟩ <;> rcases rest2 with g2 | ⟨ge2, rest2⟩
    · exact Or.inl (lt_trans g1 g2)
    · exact Or.inl (ge2 ▸ g1)
    · exact Or.inl (ge1 ▸ g2)
    · refine Or.inr ⟨ge1.trans ge2, ?_⟩
      rcases rest1 with o1 | ⟨oe1, x1⟩ <;> rcases rest2 with o2 | ⟨oe2, x2⟩
      · exact Or.inl (lt_trans o1 o2)
      · exact Or.inl (oe2 ▸ o1)
      · exact Or.inl (oe1 ▸ o2)
      · exact Or.inr ⟨oe1.trans oe2, lt_trans x2 x1⟩

theorem minCostBetter_asymm {x y : UpgradeCandidate}
    (h : MinCostToKingLevelOptimizer.better x y) :
    ¬ MinCostToKingLevelOptimizer.better y x :=
  fun h' => minCostBetter_irrefl x (minCostBetter_trans h h')

theorem selectLoop_minCost_spec (build : ℕ → Card → Option UpgradeCandidate) :
    ∀ (l : List Card) (i0 : ℕ) (best : Option UpgradeCandidate) (r : UpgradeCandidate),
      selectLoopWith build MinCostToKingLevelOptimizer.better l i0 best = some r →
      (∀ b, best = some b → (MinCostToKingLevelOptimizer.better r b ∨ r = b)) ∧
      (∀ j card c, l.get? j = some card → build (i0 + j) card = some c →
        ¬ MinCostToKingLevelOptimizer.better c r) := by
  intro l
  induction l with
  | nil =>
    intro i0 best r h
    unfold selectLoopWith at h
    refine ⟨fun b hb => ?_, fun j card c hg _ => absurd hg (by simp)⟩
    rw [h] at hb
    exact Or.inr (Option.some_inj.mp hb)
  | cons card rest ih =>
    intro i0 best r h
    unfold selectLoopWith at h
    rcases hc : build i0 card with _ | c0 <;> rw [hc] at h <;>
      rcases best with _ | b <;> dsimp only at h
    · -- no candidate here, no previous best
      obtain ⟨hA, hB⟩ := ih (i0 + 1) none r h
      refine ⟨fun b hb => absurd hb (by simp), fun j card' c hg hbc => ?_⟩
      rcases j with _ | j
      · rw [Nat.add_zero] at hbc
        rw [Option.some_inj.mp hg.symm] at hbc
        rw [hc] at hbc
        exact Option.noConfusion hbc
      · exact hB j card' c hg (by rw [show i0 + 1 + j = i0 + (j + 1) by omega]; exact hbc)
    · -- no candidate here, keep best b
      obtain ⟨hA, hB⟩ := ih (i0 + 1) (some b) r h
      refine ⟨hA, fun j card' c hg hbc => ?_⟩
      rcases j with _ | j
      · rw [Nat.add_zero] at hbc
        rw [Option.some_inj.mp hg.symm] at hbc
        rw [hc] at hbc
        exact Option.noConfusion hbc
      · exact hB j card' c hg (by rw [show i0 + 1 + j = i0 + (j + 1) by omega]; exact hbc)
    · -- first candidate c0, no previous best
      obtain ⟨hA, hB⟩ := ih (i0 + 1) (some c0) r h
      have hr0 : ¬ MinCostToKingLevelOptimizer.better c0 r := by
        rcases hA c0 rfl with hbet | heq
        · exact minCostBetter_asymm hbet
        · rw [heq]; exact minCostBetter_irrefl c0
      refine ⟨fun b hb => absurd hb (by simp), fun j card' c hg hbc => ?_⟩
      rcases j with _ | j
      · rw [Nat.add_zero] at hbc
        rw [Option.some_inj.mp hg.symm] at hbc
        obtain rfl : c0 = c := Option.some_inj.mp (hc.symm.trans hbc)
        exact hr0
      · exact hB j card' c hg (by rw [show i0 + 1 + j = i0 + (j + 1) by omega]; exact hbc)
    · -- candidate c0 against previous best b
      by_cases hbet : MinCostToKingLevelOptimizer.better c0 b
      · rw [if_pos hbet] at h
        obtain ⟨hA, hB⟩ := ih (i0 + 1) (some c0) r h
        have hrc0 : MinCostToKingLevelOptimizer.better r c0 ∨ r = c0 := hA c0 rfl
        have hr0 : ¬ MinCostToKingLevelOptimizer.better c0 r := by
          rcases hrc0 with hbet' | heq
          · exact minCostBetter_asymm hbet'
          · rw [heq]; exact minCostBetter_irrefl c0
        refine ⟨fun b' hb' => ?_, fun j card' c hg hbc => ?_⟩
        · obtain rfl : b = b' := Option.some_inj.mp hb'
          rcases hrc0 with hbet' | heq
          · exact Or.inl (minCostBetter_trans hbet' hbet)
          · rw [heq]; exact Or.inl hbet
        · rcases j with _ | j
          · rw [Nat.add_zero] at hbc
            rw [Option.some_inj.mp hg.symm] at hbc
            obtain rfl : c0 = c := Option.some_inj.mp (hc.symm.trans hbc)
            exact hr0
          · exact hB j card' c hg (by rw [show i0 + 1 + j = i0 + (j + 1) by omega]; exact hbc)
      · rw [if_neg hbet] at h
        obtain ⟨hA, hB⟩ := ih (i0 + 1) (some b) r h
        have hrb : MinCostToKingLevelOptimizer.better r b ∨ r = b := hA b rfl
        refine ⟨fun b' hb' => ?_, fun j card' c hg hbc => ?_⟩
        · obtain rfl : b = b' := Option.some_inj.mp hb'
          exact hrb
        · rcases j with _ | j
          · rw [Nat.add_zero] at hbc
            rw [Option.some_inj.mp hg.symm] at hbc
            obtain rfl : c0 = c := Option.some_inj.mp (hc.symm.trans hbc)
            intro hc0r
            rcases hrb with hbet' | heq
            · exact hbet (minCostBetter_trans hc0r hbet')
            · rw [heq] at hc0r
              exact hbet hc0r
          · exact hB j card' c hg (by rw [show i0 + 1 + j = i0 + (j + 1) by omega]; exact hbc)

theorem level16_select_some {gd : GameData} {s : OptimizationSettings} {st : OptState}
    {r : UpgradeCandidate} (h : Level16Optimizer.select_candidate gd s st = some r) :
    ∃ j card, st.cards.get? j = some card ∧
      Level16Optimizer.build_candidate gd s st j card = some r := by
  unfold Level16Optimizer.select_candidate at h
  rcases selectLoopWith_mem _ _ _ _ h with hb | ⟨j, card, hg, hb⟩
  · exact Option.noConfusion hb
  · exact ⟨j, card, hg, by rw [Nat.zero_add] at hb; exact hb⟩

theorem minCost_select_some {gd : GameData} {s : OptimizationSettings} {st : OptState}
    {r : UpgradeCandidate}
    (h : MinCostToKingLevelOptimizer.select_best_candidate gd s st = some r) :
    ∃ j card, st.cards.get? j = some card ∧
      MinCostToKingLevelOptimizer.build_candidate gd s st j card = some r := by
  unfold MinCostToKingLevelOptimizer.select_best_candidate at h
  rcases selectLoopWith_mem _ _ _ _ h with hb | ⟨j, card, hg, hb⟩
  · exact Option.noConfusion hb
  · exact ⟨j, card, hg, by rw [Nat.zero_add] at hb; exact hb⟩

theorem commit_card_eq {st : OptState} {c : UpgradeCandidate} {j : ℕ} {card : Card}
    (hg : st.cards.get? j = some card) (hidx : c.index = j) :
    st.cards.getD c.index c.card = card := by
  rw [hidx, List.getD_eq_get? _ _ _, hg]
  rfl

theorem commit_StateInv {eff : ℤ → ℤ → ℤ → ℤ → ℤ → ℚ} {gd : GameData}
    {s : OptimizationSettings} {st : OptState} {j : ℕ} {card : Card}
    {c : UpgradeCandidate}
    (hg : st.cards.get? j = some card)
    (hb : buildCandidateWith eff gd s st j card = some c)
    (hinv : StateInv st) : StateInv (commitCandidate s st c) := by
  obtain ⟨hidx, -, -, hto, hlev, hused, hwild0, hwildle, hgems, hgold, -, gc, -, -⟩ :=
    buildCandidateWith_facts hb
  obtain ⟨hcards, hg0, hge0, hw0⟩ := hinv
  have hcc := commit_card_eq hg hidx
  have hmemc : card ∈ st.cards := List.get?_mem hg
  have hcardv := hcards card hmemc
  unfold commitCandidate
  rw [hcc]
  refine ⟨?_, ?_, ?_, ?_⟩
  · intro card' hmem
    rcases List.mem_or_eq_of_mem_set hmem with hmem' | heq
    · exact hcards card' hmem'
    · rw [heq]
      refine ⟨?_, ?_, ?_⟩
      · dsimp only; omega
      · dsimp only; omega
      · dsimp only; omega
  · dsimp only
    split_ifs with hfin
    · exact hg0
    · have := hgold (by revert hfin; cases s.infinite_gold <;> simp)
      omega
  · dsimp only
    omega
  · intro r
    dsimp only
    split_ifs with hr
    · have hwr : st.available_wild card.rarity ≤ st.wild_cards card.rarity := by
        unfold OptState.available_wild
        have := hw0 card.rarity
        omega
      rw [hr]
      omega
    · exact hw0 r

theorem commit_TraceInv {eff : ℤ → ℤ → ℤ → ℤ → ℤ → ℚ} {gd : GameData}
    {s : OptimizationSettings} {st : OptState} {j : ℕ} {card : Card}
    {c : UpgradeCandidate}
    (hg : st.cards.get? j = some card)
    (hb : buildCandidateWith eff gd s st j card = some c)
    (htr : TraceInv st.actions) : TraceInv (commitCandidate s st c).actions := by
  obtain ⟨hidx, -, hfrom, hto, hlev, -⟩ := buildCandidateWith_facts hb
  intro a hmem
  unfold commitCandidate at hmem
  dsimp only at hmem
  rcases List.mem_append.mp hmem with hmem' | heq
  · exact htr a hmem'
  · have ha : a = _ := List.mem_singleton.mp heq
    rw [ha]
    exact ⟨by dsimp only; omega, by dsimp only; omega⟩

theorem sum_map_set_nat (f : Card → ℕ) :
    ∀ (l : List Card) (j : ℕ) (card card' : Card), l.get? j = some card →
      ((l.set j card').map f).sum + f card = (l.map f).sum + f card' := by
  intro l
  induction l with
  | nil => intro j card card' hg; exact absurd hg (by simp)
  | cons hd tl ih =>
    intro j card card' hg
    rcases j with _ | j
    · have : hd = card := Option.some_inj.mp hg
      rw [this]
      simp only [List.set, List.map, List.sum_cons]
      omega
    · have := ih j card card' hg
      simp only [List.set, List.map, List.sum_cons]
      omega

theorem commit_room {eff : ℤ → ℤ → ℤ → ℤ → ℤ → ℚ} {gd : GameData}
    {s : OptimizationSettings} {st : OptState} {j : ℕ} {card : Card}
    {c : UpgradeCandidate}
    (hg : st.cards.get? j = some card)
    (hb : buildCandidateWith eff gd s st j card = some c) :
    cardUpgradeRoom st.cards = cardUpgradeRoom (commitCandidate s st c).cards + 1 := by
  obtain ⟨hidx, -, -, hto, hlev, -⟩ := buildCandidateWith_facts hb
  have hcc := commit_card_eq hg hidx
  unfold commitCandidate
  dsimp only
  rw [hcc, hidx]
  unfold cardUpgradeRoom
  have hsum := sum_map_set_nat (fun cd => (16 - cd.level).toNat) st.cards j card
    { card with count := card.count - c.cards_used, level := c.to_level } hg
  dsimp only at hsum
  have hstep : (16 - card.level).toNat = (16 - c.to_level).toNat + 1 := by omega
  omega

theorem commit_gold_spent {s : OptimizationSettings} {st : OptState}
    {c : UpgradeCandidate}
    (h : st.gold_spent = (st.actions.map (·.gold_cost)).sum) :
    (commitCandidate s st c).gold_spent =
      ((commitCandidate s st c).actions.map (·.gold_cost)).sum := by
  unfold commitCandidate
  dsimp only
  rw [List.map_append, List.sum_append, h]
  simp

theorem level16_runLoop_inv (gd : GameData) (s : OptimizationSettings) :
    ∀ (fuel : ℕ) (st : OptState), StateInv st → TraceInv st.actions →
      StateInv (Level16Optimizer.runLoop gd s fuel st) ∧
      TraceInv (Level16Optimizer.runLoop gd s fuel st).actions := by
  intro fuel
  induction fuel with
  | zero => exact fun st h1 h2 => ⟨h1, h2⟩
  | succ n ih =>
    intro st h1 h2
    unfold Level16Optimizer.runLoop
    rcases hsel : Level16Optimizer.select_candidate gd s st with _ | c
    · exact ⟨h1, h2⟩
    · obtain ⟨j, card, hg, hb⟩ := level16_select_some hsel
      exact ih _ (commit_StateInv hg hb h1) (commit_TraceInv hg hb h2)

theorem minCost_runLoop_inv (gd : GameData) (s : OptimizationSettings) (target_xp : ℤ) :
    ∀ (fuel : ℕ) (st : OptState), StateInv st → TraceInv st.actions →
      StateInv (MinCostToKingLevelOptimizer.runLoop gd s target_xp fuel st) ∧
      TraceInv (MinCostToKingLevelOptimizer.runLoop gd s target_xp fuel st).actions := by
  intro fuel
  induction fuel with
  | zero => exact fun st h1 h2 => ⟨h1, h2⟩
  | succ n ih =>
    intro st h1 h2
    unfold MinCostToKingLevelOptimizer.runLoop
    split_ifs with hxp
    · rcases hsel : MinCostToKingLevelOptimizer.select_best_candidate gd s st with _ | c
      · exact ⟨h1, h2⟩
      · obtain ⟨j, card, hg, hb⟩ := minCost_select_some hsel
        exact ih _ (commit_StateInv hg hb h1) (commit_TraceInv hg hb h2)
    · exact ⟨h1, h2⟩

theorem level16_runLoop_spent (gd : GameData) (s : OptimizationSettings) :
    ∀ (fuel : ℕ) (st : OptState),
      st.gold_spent = (st.actions.map (·.gold_cost)).sum →
      (Level16Optimizer.runLoop gd s fuel st).gold_spent =
        ((Level16Optimizer.runLoop gd s fuel st).actions.map (·.gold_cost)).sum := by
  intro fuel
  induction fuel with
  | zero => exact fun st h => h
  | succ n ih =>
    intro st h
    unfold Level16Optimizer.runLoop
    rcases Level16Optimizer.select_candidate gd s st with _ | c
    · exact h
    · exact ih _ (commit_gold_spent h)

theorem minCost_runLoop_spent (gd : GameData) (s : OptimizationSettings) (target_xp : ℤ) :
    ∀ (fuel : ℕ) (st : OptState),
      st.gold_spent = (st.actions.map (·.gold_cost)).sum →
      (MinCostToKingLevelOptimizer.runLoop gd s target_xp fuel st).gold_spent =
        ((MinCostToKingLevelOptimizer.runLoop gd s target_xp fuel st).actions.map
          (·.gold_cost)).sum := by
  intro fuel
  induction fuel with
  | zero => exact fun st h => h
  | succ n ih =>
    intro st h
    unfold MinCostToKingLevelOptimizer.runLoop
    split_ifs with hxp
    · rcases MinCostToKingLevelOptimizer.select_best_candidate gd s st with _ | c
      · exact h
      · exact ih _ (commit_gold_spent h)
    · exact h

theorem minCost_runLoop_gems (gd : GameData) (s : OptimizationSettings) (target_xp : ℤ)
    (hrates : ∀ rar, 0 ≤ gd.gem_value_for_rarity rar) :
    ∀ (fuel : ℕ) (st : OptState), 0 ≤ st.gems → 0 ≤ st.total_gems_used →
      (MinCostToKingLevelOptimizer.runLoop gd s target_xp fuel st).total_gems_used +
          (MinCostToKingLevelOptimizer.runLoop gd s target_xp fuel st).gems =
        st.total_gems_used + st.gems ∧
      0 ≤ (MinCostToKingLevelOptimizer.runLoop gd s target_xp fuel st).gems ∧
      0 ≤ (MinCostToKingLevelOptimizer.runLoop gd s target_xp fuel st).total_gems_used := by
  intro fuel
  induction fuel with
  | zero => exact fun st h1 h2 => ⟨rfl, h1, h2⟩
  | succ n ih =>
    intro st h1 h2
    unfold MinCostToKingLevelOptimizer.runLoop
    split_ifs with hxp
    · rcases hsel : MinCostToKingLevelOptimizer.select_best_candidate gd s st with _ | c <;>
        dsimp only
      · exact ⟨rfl, h1, h2⟩
      · obtain ⟨j, card, hg, hb⟩ := minCost_select_some hsel
        obtain ⟨-, -, -, -, -, -, -, -, hgems, -, hgnn, -⟩ := buildCandidateWith_facts hb
        have hcge : 0 ≤ c.gems_used := hgnn (hrates card.rarity)
        have hc1 : (commitCandidate s st c).total_gems_used =
            st.total_gems_used + c.gems_used := rfl
        have hc2 : (commitCandidate s st c).gems = st.gems - c.gems_used := rfl
        have hrec := ih (commitCandidate s st c) (by omega) (by omega)
        omega
    · exact ⟨rfl, h1, h2⟩

theorem minCost_runLoop_gold (gd : GameData) (s : OptimizationSettings) (target_xp : ℤ)
    (hinf : s.infinite_gold = false)
    (hcosts : ∀ lv gc, gd.get_gold_cost lv = some gc → 0 ≤ gc) :
    ∀ (fuel : ℕ) (st : OptState), 0 ≤ st.gold → 0 ≤ st.gold_spent →
      (MinCostToKingLevelOptimizer.runLoop gd s target_xp fuel st).gold_spent +
          (MinCostToKingLevelOptimizer.runLoop gd s target_xp fuel st).gold =
        st.gold_spent + st.gold ∧
      0 ≤ (MinCostToKingLevelOptimizer.runLoop gd s target_xp fuel st).gold ∧
      0 ≤ (MinCostToKingLevelOptimizer.runLoop gd s target_xp fuel st).gold_spent := by
  intro fuel
  induction fuel with
  | zero => exact fun st h1 h2 => ⟨rfl, h1, h2⟩
  | succ n ih =>
    intro st h1 h2
    unfold MinCostToKingLevelOptimizer.runLoop
    split_ifs with hxp
    · rcases hsel : MinCostToKingLevelOptimizer.select_best_candidate gd s st with _ | c <;>
        dsimp only
      · exact ⟨rfl, h1, h2⟩
      · obtain ⟨j, card, hg, hb⟩ := minCost_select_some hsel
        obtain ⟨-, -, -, -, -, -, -, -, -, hgold, -, gc, hgc, hgceq⟩ :=
          buildCandidateWith_facts hb
        have hcge : 0 ≤ c.gold_cost := by rw [hgceq]; exact hcosts _ _ hgc
        have hle := hgold hinf
        have hc1 : (commitCandidate s st c).gold_spent =
            st.gold_spent + c.gold_cost := rfl
        have hc2 : (commitCandidate s st c).gold =
            if s.infinite_gold then st.gold else st.gold - c.gold_cost := rfl
        rw [hinf] at hc2
        simp only [Bool.false_eq_true, if_false] at hc2
        have hrec := ih (commitCandidate s st c) (by omega) (by omega)
        omega
    · exact ⟨rfl, h1, h2⟩

theorem level16_runLoop_len (gd : GameData) (s : OptimizationSettings) :
    ∀ (fuel : ℕ) (st : OptState),
      (Level16Optimizer.runLoop gd s fuel st).actions.length ≤
        st.actions.length + cardUpgradeRoom st.cards := by
  intro fuel
  induction fuel with
  | zero =>
    intro st
    unfold Level16Optimizer.runLoop
    omega
  | succ n ih =>
    intro st
    unfold Level16Optimizer.runLoop
    rcases hsel : Level16Optimizer.select_candidate gd s st with _ | c <;> dsimp only
    · omega
    · obtain ⟨j, card, hg, hb⟩ := level16_select_some hsel
      have hroom := commit_room hg hb
      have hlen : (commitCandidate s st c).actions.length = st.actions.length + 1 := by
        unfold commitCandidate
        dsimp only
        rw [List.length_append]
        rfl
      have := ih (commitCandidate s st c)
      omega

theorem build_none_of_capped {eff : ℤ → ℤ → ℤ → ℤ → ℤ → ℚ} {gd : GameData}
    {s : OptimizationSettings} {st : OptState} {i : ℕ} {card : Card}
    (hl : card.level ≥ 16) : buildCandidateWith eff gd s st i card = none := by
  unfold buildCandidateWith Card.next_level
  rw [if_pos hl]

theorem selectLoop_none {build : ℕ → Card → Option UpgradeCandidate}
    {better : UpgradeCandidate → UpgradeCandidate → Prop} [DecidableRel better] :
    ∀ (l : List Card) (i0 : ℕ) (best : Option UpgradeCandidate),
      (∀ i card, card ∈ l → build i card = none) →
      selectLoopWith build better l i0 best = best := by
  intro l
  induction l with
  | nil => intro i0 best h; rfl
  | cons card rest ih =>
    intro i0 best h
    unfold selectLoopWith
    rw [h i0 card (by simp)]
    dsimp only
    exact ih (i0 + 1) best (fun i card' hmem => h i card' (by simp [hmem]))

theorem room_zero_select_none {gd : GameData} {s : OptimizationSettings} {st : OptState}
    (hroom : cardUpgradeRoom st.cards = 0) :
    Level16Optimizer.select_candidate gd s st = none := by
  unfold Level16Optimizer.select_candidate
  refine selectLoop_none st.cards 0 none (fun i card hmem => ?_)
  have hz : (16 - card.level).toNat = 0 := by
    unfold cardUpgradeRoom at hroom
    rw [List.sum_eq_zero_iff] at hroom
    exact hroom _ (List.mem_map_of_mem _ hmem)
  exact build_none_of_capped (by omega)

theorem level16_runLoop_stable (gd : GameData) (s : OptimizationSettings) :
    ∀ (fuel : ℕ) (st : OptState) (k : ℕ), cardUpgradeRoom st.cards ≤ fuel →
      Level16Optimizer.runLoop gd s (fuel + k) st = Level16Optimizer.runLoop gd s fuel st := by
  intro fuel
  induction fuel with
  | zero =>
    intro st k hroom
    have hsel : Level16Optimizer.select_candidate gd s st = none :=
      room_zero_select_none (by omega)
    have hk : ∀ m, Level16Optimizer.runLoop gd s m st = st := by
      intro m
      cases m with
      | zero => rfl
      | succ m =>
        unfold Level16Optimizer.runLoop
        rw [hsel]
    rw [Nat.zero_add, hk, hk]
  | succ n ih =>
    intro st k hroom
    have hstep : n + 1 + k = (n + k) + 1 := by omega
    rw [hstep]
    show Level16Optimizer.runLoop gd s ((n + k) + 1) st =
      Level16Optimizer.runLoop gd s (n + 1) st
    unfold Level16Optimizer.runLoop
    rcases hsel : Level16Optimizer.select_candidate gd s st with _ | c
    · rfl
    · obtain ⟨j, card, hg, hb⟩ := level16_select_some hsel
      have hroom' := commit_room hg hb
      exact ih (commitCandidate s st c) k (by omega)

theorem minCost_plan_gems_bound (gd : GameData) (s : OptimizationSettings)
    (player : PlayerData) (target : Option ℤ)
    (hrates : ∀ rar, 0 ≤ gd.gem_value_for_rarity rar)
    (hg0 : 0 ≤ player.inventory.gems) :
    0 ≤ (MinCostToKingLevelOptimizer.generate_plan gd s player target).total_gems_used ∧
    (MinCostToKingLevelOptimizer.generate_plan gd s player target).total_gems_used ≤
      player.inventory.gems := by
  unfold MinCostToKingLevelOptimizer.generate_plan
  dsimp only
  split_ifs with hneed
  · exact ⟨le_refl 0, hg0⟩
  · have hrun := minCost_runLoop_gems gd s
      (gd.total_xp_for_level (MinCostToKingLevelOptimizer.target_level player target)) hrates
      (cardUpgradeRoom (initState gd player).cards) (initState gd player) hg0 (le_refl 0)
    have hm1 : (mkResult gd (MinCostToKingLevelOptimizer.runLoop gd s
        (gd.total_xp_for_level (MinCostToKingLevelOptimizer.target_level player target))
        (cardUpgradeRoom (initState gd player).cards) (initState gd player))).total_gems_used =
        (MinCostToKingLevelOptimizer.runLoop gd s
          (gd.total_xp_for_level (MinCostToKingLevelOptimizer.target_level player target))
          (cardUpgradeRoom (initState gd player).cards) (initState gd player)).total_gems_used :=
      rfl
    have hi1 : (initState gd player).total_gems_used = 0 := rfl
    have hi2 : (initState gd player).gems = player.inventory.gems := rfl
    omega

theorem minCost_plan_gold_bound (gd : GameData) (s : OptimizationSettings)
    (player : PlayerData) (target : Option ℤ)
    (hinf : s.infinite_gold = false)
    (hcosts : ∀ lv gc, gd.get_gold_cost lv = some gc → 0 ≤ gc)
    (hg0 : 0 ≤ player.inventory.gold) :
    0 ≤ (MinCostToKingLevelOptimizer.generate_plan gd s player target).total_gold_spent ∧
    (MinCostToKingLevelOptimizer.generate_plan gd s player target).total_gold_spent ≤
      player.inventory.gold := by
  unfold MinCostToKingLevelOptimizer.generate_plan
  dsimp only
  split_ifs with hneed
  · exact ⟨le_refl 0, hg0⟩
  · have hrun := minCost_runLoop_gold gd s
      (gd.total_xp_for_level (MinCostToKingLevelOptimizer.target_level player target)) hinf hcosts
      (cardUpgradeRoom (initState gd player).cards) (initState gd player) hg0 (le_refl 0)
    have hm1 : (mkResult gd (MinCostToKingLevelOptimizer.runLoop gd s
        (gd.total_xp_for_level (MinCostToKingLevelOptimizer.target_level player target))
        (cardUpgradeRoom (initState gd player).cards) (initState gd player))).total_gold_spent =
        (MinCostToKingLevelOptimizer.runLoop gd s
          (gd.total_xp_for_level (MinCostToKingLevelOptimizer.target_level player target))
          (cardUpgradeRoom (initState gd player).cards) (initState gd player)).gold_spent :=
      rfl
    have hi1 : (initState gd player).gold_spent = 0 := rfl
    have hi2 : (initState gd player).gold = player.inventory.gold := rfl
    omega

theorem findMinGemLoop_spec (player : PlayerData) (target : ℤ) (gd : GameData)
    (hrates : ∀ rar, 0 ≤ gd.gem_value_for_rarity rar) :
    ∀ (fuel : ℕ) (limit : ℤ) (best : Option OptimizationResult),
      0 ≤ limit → limit.toNat < fuel →
      (∀ b, best = some b →
        target ≤ b.final_profile.king_level ∧ b.total_gems_used ≠ 0 ∧
          limit = b.total_gems_used - 1) →
      ∀ r, findMinGemLoop player target gd fuel limit best = some r →
        target ≤ r.final_profile.king_level ∧
        (r.total_gems_used = 0 ∨
          (MinCostToKingLevelOptimizer.generate_plan gd
            { use_gems := true, infinite_gold := true }
            (setGems player (r.total_gems_used - 1))
            (some target)).final_profile.king_level < target) := by
  intro fuel
  induction fuel with
  | zero => intro limit best h0 hlt; exact absurd hlt (by omega)
  | succ n ih =>
    intro limit best h0 hlt hbest r hr
    unfold findMinGemLoop at hr
    dsimp only at hr
    split_ifs at hr with hreach hzero
    · obtain rfl := Option.some_inj.mp hr
      exact ⟨hreach, Or.inl hzero⟩
    · have hsg : (setGems player limit).inventory.gems = limit := rfl
      have hgb := minCost_plan_gems_bound gd { use_gems := true, infinite_gold := true }
        (setGems player limit) (some target) hrates (by omega)
      have hused1 : 1 ≤ (MinCostToKingLevelOptimizer.generate_plan gd
          { use_gems := true, infinite_gold := true } (setGems player limit)
          (some target)).total_gems_used := by omega
      refine ih _ _ (by omega) (by omega) (fun b hb => ?_) r hr
      obtain rfl := Option.some_inj.mp hb
      exact ⟨hreach, hzero, rfl⟩
    · obtain ⟨hre, hnz, hlim⟩ := hbest r hr
      refine ⟨hre, Or.inr ?_⟩
      rw [← hlim]
      exact lt_of_not_le hreach

theorem findMinGoldLoop_spec (player : PlayerData) (target : ℤ) (gd : GameData)
    (hcosts : ∀ lv gc, gd.get_gold_cost lv = some gc → 0 ≤ gc) :
    ∀ (fuel : ℕ) (limit : ℤ) (best : Option OptimizationResult),
      0 ≤ limit → limit.toNat < fuel →
      (∀ b, best = some b →
        target ≤ b.final_profile.king_level ∧ b.total_gold_spent ≠ 0 ∧
          limit = b.total_gold_spent - 1) →
      ∀ r, findMinGoldLoop player target gd fuel limit best = some r →
        target ≤ r.final_profile.king_level ∧
        (r.total_gold_spent = 0 ∨
          (MinCostToKingLevelOptimizer.generate_plan gd
            { use_gems := true, infinite_gold := false }
            (setGold (setGems player 10000000) (r.total_gold_spent - 1))
            (some target)).final_profile.king_level < target) := by
  intro fuel
  induction fuel with
  | zero => intro limit best h0 hlt; exact absurd hlt (by omega)
  | succ n ih =>
    intro limit best h0 hlt hbest r hr
    unfold findMinGoldLoop at hr
    dsimp only at hr
    split_ifs at hr with hreach hzero
    · obtain rfl := Option.some_inj.mp hr
      exact ⟨hreach, Or.inl hzero⟩
    · have hsg : (setGold (setGems player 10000000) limit).inventory.gold = limit := rfl
      have hgb := minCost_plan_gold_bound gd { use_gems := true, infinite_gold := false }
        (setGold (setGems player 10000000) limit) (some target) rfl hcosts (by omega)
      have hused1 : 1 ≤ (MinCostToKingLevelOptimizer.generate_plan gd
          { use_gems := true, infinite_gold := false }
          (setGold (setGems player 10000000) limit)
          (some target)).total_gold_spent := by omega
      refine ih _ _ (by omega) (by omega) (fun b hb => ?_) r hr
      obtain rfl := Option.some_inj.mp hb
      exact ⟨hreach, hzero, rfl⟩
    · obtain ⟨hre, hnz, hlim⟩ := hbest r hr
      refine ⟨hre, Or.inr ?_⟩
      rw [← hlim]
      exact lt_of_not_le hreach

theorem kingChain_cum_le :
    ∀ (l : List KingRow) (x y : KingRow),
      List.Chain (fun a b : KingRow => a.cumulative ≤ b.cumulative) x l → y ∈ l →
      x.cumulative ≤ y.cumulative := by
  intro l
  induction l with
  | nil => intro x y _ hy; exact absurd hy (by simp)
  | cons hd tl ih =>
    intro x y hchain hy
    rw [List.chain_cons] at hchain
    rcases List.mem_cons.mp hy with rfl | hy'
    · exact hchain.1
    · exact le_trans hchain.1 (ih hd y hchain.2 hy')

theorem scanRow_spec (total : ℤ) :
    ∀ (l : List KingRow) (cur : KingRow),
      List.Chain (fun a b : KingRow => a.level < b.level) cur l →
      List.Chain (fun a b : KingRow => a.cumulative ≤ b.cumulative) cur l →
      cur.cumulative ≤ total →
      (GameData.scanRow total cur l = cur ∨ GameData.scanRow total cur l ∈ l) ∧
      (GameData.scanRow total cur l).cumulative ≤ total ∧
      ∀ r, (r = cur ∨ r ∈ l) → r.cumulative ≤ total →
        r.level ≤ (GameData.scanRow total cur l).level := by
  intro l
  induction l with
  | nil =>
    intro cur h1 h2 h3
    unfold GameData.scanRow
    refine ⟨Or.inl rfl, h3, fun r hr hrc => ?_⟩
    rcases hr with rfl | hmem
    · exact le_refl _
    · exact absurd hmem (by simp)
  | cons hd tl ih =>
    intro cur h1 h2 h3
    rw [List.chain_cons] at h1 h2
    unfold GameData.scanRow
    split_ifs with hcum
    · obtain ⟨ha, hb, hc⟩ := ih hd h1.2 h2.2 hcum
      refine ⟨?_, hb, ?_⟩
      · rcases ha with he | hm
        · exact Or.inr (by rw [he]; exact List.mem_cons_self hd tl)
        · exact Or.inr (List.mem_cons_of_mem hd hm)
      · intro r hr hrc
        rcases hr with rfl | hm
        · exact le_of_lt (lt_of_lt_of_le h1.1 (hc hd (Or.inl rfl) hcum))
        · exact hc r (List.mem_cons.mp hm) hrc
    · refine ⟨Or.inl rfl, h3, fun r hr hrc => ?_⟩
      rcases hr with rfl | hm
      · exact le_refl _
      · rcases List.mem_cons.mp hm with rfl | hm'
        · omega
        · have := kingChain_cum_le tl hd r h2.2 hm'
          omega

/-- C1 (corrected): the Max-Value scorer applies a table override verbatim
whenever one exists for the target level, in every mode; otherwise the
efficiency is (currency-A cost + currency-B cost, added at face value
without any conversion ratio) divided by the reward (with reward replaced
by 1 when zero), again in every mode — the unlimited-currency-A flag never
changes the scoring. -/
theorem claim_C1 (gd : GameData) (t gold xp cards gems : ℤ) :
    (∀ o, gd.get_efficiency_override t = some o →
      Level16Optimizer.calculate_efficiency gd t gold xp cards gems = o) ∧
    (gd.get_efficiency_override t = none →
      Level16Optimizer.calculate_efficiency gd t gold xp cards gems =
        ((gold + gems : ℤ) : ℚ) / ((if xp = 0 then 1 else xp : ℤ) : ℚ)) := by
  unfold Level16Optimizer.calculate_efficiency
  constructor
  · intro o ho
    rw [ho]
  · intro h
    rw [h]

/-- C1 counterexample: under unlimited-currency-A mode the claim predicts
efficiency = owned-units-required ÷ reward (10/50), but the candidate the
code builds is scored (gold + gems) / xp = 2. -/
theorem claim_C1_counterexample :
    (Level16Optimizer.build_candidate gdA sInfGold (initState gdA playerA) 0
        { name := "X", rarity := "Common", level := 15, count := 10 }).map
      (fun c => c.efficiency_ratio) =
      some (Level16Optimizer.calculate_efficiency gdA 16 100 50 10 0) ∧
    Level16Optimizer.calculate_efficiency gdA 16 100 50 10 0 ≠
      ((10 : ℤ) : ℚ) / ((50 : ℤ) : ℚ) := by
  constructor
  · rfl
  · unfold Level16Optimizer.calculate_efficiency GameData.get_efficiency_override gdA
    norm_num

/-- C1 witness: the amended claim applied at a concrete table with no
override. -/
theorem claim_C1_witness :
    gdA.get_efficiency_override 16 = none ∧
    Level16Optimizer.calculate_efficiency gdA 16 100 50 10 0 =
      ((100 + 0 : ℤ) : ℚ) / ((if (50 : ℤ) = 0 then 1 else 50 : ℤ) : ℚ) :=
  ⟨rfl, (claim_C1 gdA 16 100 50 10 0).2 rfl⟩

/-- C2 (corrected): in both simulators the reported `total_gold_spent`
always equals the sum of the per-action gold costs of the returned trace —
including unlimited-currency-A mode, where the gold balance is left
untouched but the spend is still tallied (it is not reported as 0). -/
theorem claim_C2 (gd : GameData) (s : OptimizationSettings) (player : PlayerData)
    (target : Option ℤ) :
    (Level16Optimizer.generate_plan gd s player).total_gold_spent =
      ((Level16Optimizer.generate_plan gd s player).actions.map (fun a => a.gold_cost)).sum ∧
    (MinCostToKingLevelOptimizer.generate_plan gd s player target).total_gold_spent =
      ((MinCostToKingLevelOptimizer.generate_plan gd s player target).actions.map
        (fun a => a.gold_cost)).sum := by
  constructor
  · exact level16_runLoop_spent gd s (cardUpgradeRoom (initState gd player).cards)
      (initState gd player) rfl
  · unfold MinCostToKingLevelOptimizer.generate_plan
    dsimp only
    split_ifs with h
    · rfl
    · exact minCost_runLoop_spent gd s _ _ _ rfl

/-- C2 counterexample: a completed unlimited-currency-A run whose reported
total gold spend is 100, not 0. -/
theorem claim_C2_counterexample :
    sInfGold.infinite_gold = true ∧
    (Level16Optimizer.generate_plan gdA sInfGold playerA).total_gold_spent = 100 ∧
    (Level16Optimizer.generate_plan gdA sInfGold playerA).total_gold_spent ≠ 0 := by
  refine ⟨rfl, rfl, ?_⟩
  rw [show (Level16Optimizer.generate_plan gdA sInfGold playerA).total_gold_spent = 100
    from rfl]
  decide

/-- C3 (confirmed): when the starting total score already meets the target
milestone's required score, the Min-Cost simulator returns an empty trace,
zero total reward, and final balances equal to the starting balances. -/
theorem claim_C3 (gd : GameData) (s : OptimizationSettings) (player : PlayerData)
    (target : Option ℤ)
    (h : gd.total_xp_for_level (MinCostToKingLevelOptimizer.target_level player target) ≤
      gd.total_xp_for_level player.profile.king_level + player.profile.xp_into_level) :
    (MinCostToKingLevelOptimizer.generate_plan gd s player target).actions = [] ∧
    (MinCostToKingLevelOptimizer.generate_plan gd s player target).total_xp_gained = 0 ∧
    (MinCostToKingLevelOptimizer.generate_plan gd s player target).final_gold =
      player.inventory.gold ∧
    (MinCostToKingLevelOptimizer.generate_plan gd s player target).final_gems =
      player.inventory.gems ∧
    (MinCostToKingLevelOptimizer.generate_plan gd s player target).total_gold_spent = 0 ∧
    (MinCostToKingLevelOptimizer.generate_plan gd s player target).total_gems_used = 0 ∧
    ∀ r, (MinCostToKingLevelOptimizer.generate_plan gd s player target).total_wild_cards_used
      r = 0 := by
  unfold MinCostToKingLevelOptimizer.generate_plan
  dsimp only
  split_ifs with hc
  · exact ⟨rfl, rfl, rfl, rfl, rfl, rfl, fun r => rfl⟩
  · exfalso
    have hx : (initState gd player).xp_total =
      gd.total_xp_for_level player.profile.king_level + player.profile.xp_into_level := rfl
    omega

/-- C3 witness: target milestone 1 is already met by a level-2 player. -/
theorem claim_C3_witness :
    gdA.total_xp_for_level (MinCostToKingLevelOptimizer.target_level playerMet (some 1)) ≤
      gdA.total_xp_for_level playerMet.profile.king_level +
        playerMet.profile.xp_into_level ∧
    (MinCostToKingLevelOptimizer.generate_plan gdA sInfGold playerMet (some 1)).actions = [] ∧
    (MinCostToKingLevelOptimizer.generate_plan gdA sInfGold playerMet (some 1)).final_gold =
      playerMet.inventory.gold := by
  have h := claim_C3 gdA sInfGold playerMet (some 1) (by decide)
  exact ⟨by decide, h.1, h.2.2.1⟩

/-- C4 (confirmed): whatever the Min-Cost selector returns was built from
some card this round, and beats every candidate of the round in the strict
priority order: efficiency, then fewest gems, then least gold, then
highest XP. -/
theorem claim_C4 (gd : GameData) (s : OptimizationSettings) (st : OptState)
    (b : UpgradeCandidate)
    (h : MinCostToKingLevelOptimizer.select_best_candidate gd s st = some b) :
    (∃ j card, st.cards.get? j = some card ∧
      MinCostToKingLevelOptimizer.build_candidate gd s st j card = some b) ∧
    ∀ j card c, st.cards.get? j = some card →
      MinCostToKingLevelOptimizer.build_candidate gd s st j card = some c →
      b.efficiency_ratio ≤ c.efficiency_ratio ∧
      (c.efficiency_ratio = b.efficiency_ratio → b.gems_used ≤ c.gems_used) ∧
      (c.efficiency_ratio = b.efficiency_ratio ∧ c.gems_used = b.gems_used →
        b.gold_cost ≤ c.gold_cost) ∧
      (c.efficiency_ratio = b.efficiency_ratio ∧ c.gems_used = b.gems_used ∧
        c.gold_cost = b.gold_cost → c.xp_gained ≤ b.xp_gained) := by
  refine ⟨minCost_select_some h, ?_⟩
  intro j card c hg hbc
  unfold MinCostToKingLevelOptimizer.select_best_candidate at h
  have hdom := (selectLoop_minCost_spec (MinCostToKingLevelOptimizer.build_candidate gd s st)
    st.cards 0 none b h).2 j card c hg (by rw [Nat.zero_add]; exact hbc)
  unfold MinCostToKingLevelOptimizer.better at hdom
  push_neg at hdom
  exact ⟨hdom.1, fun he => (hdom.2 he).1, fun hp => ((hdom.2 hp.1).2 hp.2).1,
    fun hp => ((hdom.2 hp.1).2 hp.2.1).2 hp.2.2⟩

/-- C4 witness: the single-candidate round around `playerA`. -/
theorem claim_C4_witness :
    MinCostToKingLevelOptimizer.select_best_candidate gdA sInfGold
      (initState gdA playerA) = some bW ∧
    bW.efficiency_ratio ≤ bW.efficiency_ratio ∧ bW.gems_used ≤ bW.gems_used := by
  have hsel : MinCostToKingLevelOptimizer.select_best_candidate gdA sInfGold
      (initState gdA playerA) = some bW := rfl
  have h := claim_C4 gdA sInfGold (initState gdA playerA) bW hsel
  have h2 := h.2 0 { name := "X", rarity := "Common", level := 15, count := 10 } bW rfl rfl
  exact ⟨hsel, h2.1, h2.2.1 rfl⟩

/-- C7 (confirmed): from a validated state, in either simulator and after
any number of loop rounds, every recorded action raises its item's level by
exactly 1 and never past the cap 16, and levels stay in `[1, 16]` while
counts, gold, gems and universal tokens stay non-negative. -/
theorem claim_C7 (gd : GameData) (s : OptimizationSettings) (player : PlayerData)
    (target_xp : ℤ) (fuel : ℕ) (hv : ValidPlayer player) :
    (StateInv (Level16Optimizer.runLoop gd s fuel (initState gd player)) ∧
      TraceInv (Level16Optimizer.runLoop gd s fuel (initState gd player)).actions) ∧
    (StateInv (MinCostToKingLevelOptimizer.runLoop gd s target_xp fuel
        (initState gd player)) ∧
      TraceInv (MinCostToKingLevelOptimizer.runLoop gd s target_xp fuel
        (initState gd player)).actions) := by
  obtain ⟨hc, hgo, hge, hw⟩ := hv
  have hinv : StateInv (initState gd player) :=
    ⟨fun card hm => ⟨(hc card hm).1, (hc card hm).2.1, (hc card hm).2.2.1⟩, hgo, hge, hw⟩
  have htr : TraceInv (initState gd player).actions := fun a ha =>
    absurd ha (List.not_mem_nil a)
  exact ⟨level16_runLoop_inv gd s fuel _ hinv htr,
    minCost_runLoop_inv gd s target_xp fuel _ hinv htr⟩

/-- C7 witness: concrete one-round runs keep gold and gems non-negative. -/
theorem claim_C7_witness :
    0 ≤ (Level16Optimizer.runLoop gdA sInfGold 1 (initState gdA playerA)).gold ∧
    0 ≤ (MinCostToKingLevelOptimizer.runLoop gdA sInfGold 100 1
      (initState gdA playerA)).gems := by
  have h := claim_C7 gdA sInfGold playerA 100 1
    ⟨by decide, by decide, by decide, fun r => le_refl 0⟩
  exact ⟨h.1.1.2.1, h.2.1.2.2.1⟩

/-- C8 (confirmed): from a validated state the Max-Value loop commits at
most `Σ (16 − starting level)` actions, and running it with any extra fuel
beyond that bound changes nothing (the loop has terminated). -/
theorem claim_C8 (gd : GameData) (s : OptimizationSettings) (player : PlayerData)
    (hv : ValidPlayer player) :
    (∀ fuel, (Level16Optimizer.runLoop gd s fuel (initState gd player)).actions.length ≤
      cardUpgradeRoom player.cards) ∧
    ∀ k, Level16Optimizer.runLoop gd s (cardUpgradeRoom player.cards + k)
        (initState gd player) =
      Level16Optimizer.runLoop gd s (cardUpgradeRoom player.cards) (initState gd player) := by
  constructor
  · intro fuel
    have h := level16_runLoop_len gd s fuel (initState gd player)
    have h1 : (initState gd player).actions.length = 0 := rfl
    have h2 : cardUpgradeRoom (initState gd player).cards = cardUpgradeRoom player.cards := rfl
    omega
  · intro k
    exact level16_runLoop_stable gd s (cardUpgradeRoom player.cards) (initState gd player) k
      (le_of_eq rfl)

/-- C5 (confirmed): whenever a Minimal-Currency Search result reaches the
target, its usage of the minimized currency is minimal: it is 0, or
re-running the Min-Cost simulator with the ceiling one lower fails to reach
the target.  (Table sign conditions reflect the spec's data model for the
absent `constants.py`.) -/
theorem claim_C5 (player : PlayerData) (target : ℤ) (gd : GameData)
    (hrates : ∀ rar, 0 ≤ gd.gem_value_for_rarity rar)
    (hcosts : ∀ lv gc, gd.get_gold_cost lv = some gc → 0 ≤ gc) :
    (target ≤ (find_min_gem_path player target gd).final_profile.king_level →
      (find_min_gem_path player target gd).total_gems_used = 0 ∨
      (MinCostToKingLevelOptimizer.generate_plan gd
        { use_gems := true, infinite_gold := true }
        (setGems player ((find_min_gem_path player target gd).total_gems_used - 1))
        (some target)).final_profile.king_level < target) ∧
    (target ≤ (find_min_gold_path player target gd).final_profile.king_level →
      (find_min_gold_path player target gd).total_gold_spent = 0 ∨
      (MinCostToKingLevelOptimizer.generate_plan gd
        { use_gems := true, infinite_gold := false }
        (setGold (setGems player 10000000)
          ((find_min_gold_path player target gd).total_gold_spent - 1))
        (some target)).final_profile.king_level < target) := by
  constructor
  · intro hreach
    unfold find_min_gem_path at hreach ⊢
    rcases hloop : findMinGemLoop player target gd 10000002 10000000 none with _ | r
    · exact Or.inl rfl
    · exact (findMinGemLoop_spec player target gd hrates 10000002 10000000 none
        (by decide) (by decide) (fun b hb => Option.noConfusion hb) r hloop).2
  · intro hreach
    unfold find_min_gold_path at hreach ⊢
    rcases hloop : findMinGoldLoop player target gd 100000002 100000000 none with _ | r
    · exact Or.inl rfl
    · exact (findMinGoldLoop_spec player target gd hcosts 100000002 100000000 none
        (by decide) (by decide) (fun b hb => Option.noConfusion hb) r hloop).2

/-- C5 witness: both searches at a target that is met with zero usage. -/
theorem claim_C5_witness :
    1 ≤ (find_min_gem_path playerMet 1 gdA).final_profile.king_level ∧
    ((find_min_gem_path playerMet 1 gdA).total_gems_used = 0 ∨
      (MinCostToKingLevelOptimizer.generate_plan gdA
        { use_gems := true, infinite_gold := true }
        (setGems playerMet ((find_min_gem_path playerMet 1 gdA).total_gems_used - 1))
        (some 1)).final_profile.king_level < 1) ∧
    1 ≤ (find_min_gold_path playerMet 1 gdA).final_profile.king_level ∧
    ((find_min_gold_path playerMet 1 gdA).total_gold_spent = 0 ∨
      (MinCostToKingLevelOptimizer.generate_plan gdA
        { use_gems := true, infinite_gold := false }
        (setGold (setGems playerMet 10000000)
          ((find_min_gold_path playerMet 1 gdA).total_gold_spent - 1))
        (some 1)).final_profile.king_level < 1) := by
  have h := claim_C5 playerMet 1 gdA (fun rar => le_refl 0)
    (fun lv gc hgc => by
      simp only [GameData.get_gold_cost, gdA, Option.some.injEq] at hgc
      omega)
  have h1 : 1 ≤ (find_min_gem_path playerMet 1 gdA).final_profile.king_level := by decide
  have h2 : 1 ≤ (find_min_gold_path playerMet 1 gdA).final_profile.king_level := by decide
  exact ⟨h1, h.1 h1, h2, h.2 h2⟩

/-- C6 (confirmed): when even the first, effectively-unlimited iteration
fails to reach the target, both searches return the synthetic empty
result: empty trace, zero reward, zero spend of every currency, and the
final profile and balances of the unmodified starting state; being total
functions they raise nothing. -/
theorem claim_C6 (player : PlayerData) (target : ℤ) (gd : GameData)
    (hgem : (MinCostToKingLevelOptimizer.generate_plan gd
      { use_gems := true, infinite_gold := true }
      (setGems player 10000000) (some target)).final_profile.king_level < target)
    (hgold : (MinCostToKingLevelOptimizer.generate_plan gd
      { use_gems := true, infinite_gold := false }
      (setGold (setGems player 10000000) 100000000)
      (some target)).final_profile.king_level < target) :
    find_min_gem_path player target gd = emptyResultFor gd player ∧
    find_min_gold_path player target gd = emptyResultFor gd player ∧
    (emptyResultFor gd player).actions = [] ∧
    (emptyResultFor gd player).total_xp_gained = 0 ∧
    (emptyResultFor gd player).final_gold = player.inventory.gold ∧
    (emptyResultFor gd player).final_gems = player.inventory.gems ∧
    (emptyResultFor gd player).total_gold_spent = 0 ∧
    (emptyResultFor gd player).total_gems_used = 0 ∧
    (∀ r, (emptyResultFor gd player).total_wild_cards_used r = 0) ∧
    (emptyResultFor gd player).final_profile.king_level =
      (gd.king_progress_from_total_xp (gd.total_xp_for_level player.profile.king_level +
        player.profile.xp_into_level)).level := by
  have hloopg : findMinGemLoop player target gd 10000002 10000000 none = none := by
    rw [show (10000002 : ℕ) = 10000001 + 1 from rfl]
    unfold findMinGemLoop
    dsimp only
    rw [if_neg (not_le.mpr hgem)]
  have hloopd : findMinGoldLoop player target gd 100000002 100000000 none = none := by
    rw [show (100000002 : ℕ) = 100000001 + 1 from rfl]
    unfold findMinGoldLoop
    dsimp only
    rw [if_neg (not_le.mpr hgold)]
  refine ⟨?_, ?_, rfl, rfl, rfl, rfl, rfl, rfl, fun r => rfl, rfl⟩
  · unfold find_min_gem_path
    rw [hloopg]
    rfl
  · unfold find_min_gold_path
    rw [hloopd]
    rfl

/-- C6 witness: a cardless player can never reach milestone 3. -/
theorem claim_C6_witness :
    (MinCostToKingLevelOptimizer.generate_plan gdA
      { use_gems := true, infinite_gold := true }
      (setGems playerEmpty 10000000) (some 3)).final_profile.king_level < 3 ∧
    find_min_gem_path playerEmpty 3 gdA = emptyResultFor gdA playerEmpty ∧
    find_min_gold_path playerEmpty 3 gdA = emptyResultFor gdA playerEmpty ∧
    (find_min_gem_path playerEmpty 3 gdA).final_gold = playerEmpty.inventory.gold := by
  have h := claim_C6 playerEmpty 3 gdA (by decide) (by decide)
  refine ⟨by decide, h.1, h.2.1, ?_⟩
  rw [h.1]
  exact h.2.2.2.2.1

/-- C8 witness: the bound and the stability at the concrete one-card
state. -/
theorem claim_C8_witness :
    (Level16Optimizer.runLoop gdA sInfGold 5 (initState gdA playerA)).actions.length ≤
      cardUpgradeRoom playerA.cards ∧
    Level16Optimizer.runLoop gdA sInfGold (cardUpgradeRoom playerA.cards + 1)
        (initState gdA playerA) =
      Level16Optimizer.runLoop gdA sInfGold (cardUpgradeRoom playerA.cards)
        (initState gdA playerA) := by
  have h := claim_C8 gdA sInfGold playerA ⟨by decide, by decide, by decide, fun r => le_refl 0⟩
  exact ⟨h.1 5, h.2 1⟩

/-- C9 (corrected): for every NON-NEGATIVE total score, the milestone
lookup settles on the greatest curve row whose cumulative score is at most
the input, the progress-into-level lies in `[0, score-to-next]`, and it is
0 at the terminal row.  (For negative inputs the code's `min`-only clamp
returns a negative progress, so the claim's "every integer" fails.) -/
theorem claim_C9 (gd : GameData) (total : ℤ)
    (hne : gd.king_levels ≠ [])
    (hmono : gd.king_levels.Chain' (fun a b => a.cumulative ≤ b.cumulative))
    (hlev : gd.king_levels.Chain' (fun a b => a.level < b.level))
    (hhead : ∀ r0, gd.king_levels.head? = some r0 → r0.cumulative = 0)
    (hnextnn : ∀ r ∈ gd.king_levels, 0 ≤ r.xp_to_next.getD 0)
    (htot : 0 ≤ total) :
    GameData.chosen_row gd total ∈ gd.king_levels ∧
    (GameData.chosen_row gd total).cumulative ≤ total ∧
    (gd.king_progress_from_total_xp total).level = (GameData.chosen_row gd total).level ∧
    (∀ r ∈ gd.king_levels, r.cumulative ≤ total →
      r.level ≤ (GameData.chosen_row gd total).level) ∧
    0 ≤ (gd.king_progress_from_total_xp total).xp_into_level ∧
    (gd.king_progress_from_total_xp total).xp_into_level ≤
      (GameData.chosen_row gd total).xp_to_next.getD 0 ∧
    ((GameData.chosen_row gd total).xp_to_next = none →
      (gd.king_progress_from_total_xp total).xp_into_level = 0) := by
  rcases hrows : gd.king_levels with _ | ⟨r0, rest⟩
  · exact absurd hrows hne
  · have hmono' : List.Chain (fun a b : KingRow => a.cumulative ≤ b.cumulative) r0 rest := by
      rw [hrows] at hmono
      exact hmono
    have hlev' : List.Chain (fun a b : KingRow => a.level < b.level) r0 rest := by
      rw [hrows] at hlev
      exact hlev
    have hr0c : r0.cumulative = 0 := hhead r0 (by rw [hrows]; rfl)
    have hcr : GameData.chosen_row gd total = GameData.scanRow total r0 rest := by
      unfold GameData.chosen_row
      rw [hrows]
      have hstep : GameData.scanRow total ((r0 :: rest).headD ⟨0, 0, none⟩) (r0 :: rest) =
          if r0.cumulative ≤ total then GameData.scanRow total r0 rest else r0 := rfl
      rw [hstep, if_pos (by omega)]
    obtain ⟨hmem, hcle, hmax⟩ := scanRow_spec total rest r0 hlev' hmono' (by omega)
    rw [← hcr] at hmem hcle hmax
    have hmem' : GameData.chosen_row gd total ∈ r0 :: rest := by
      rcases hmem with he | hm
      · rw [he]; exact List.mem_cons_self r0 rest
      · exact List.mem_cons_of_mem r0 hm
    have hklevel : (gd.king_progress_from_total_xp total).level =
      (GameData.chosen_row gd total).level := rfl
    have hkinto : (gd.king_progress_from_total_xp total).xp_into_level =
      (if (GameData.chosen_row gd total).xp_to_next.getD 0 ≠ 0 then
        min (total - (GameData.chosen_row gd total).cumulative)
          ((GameData.chosen_row gd total).xp_to_next.getD 0)
      else 0) := rfl
    have hnn : 0 ≤ (GameData.chosen_row gd total).xp_to_next.getD 0 :=
      hnextnn _ (by rw [hrows]; exact hmem')
    refine ⟨hmem', hcle, hklevel, ?_, ?_, ?_, ?_⟩
    · intro r hr hrc
      rcases List.mem_cons.mp hr with rfl | hm
      · exact hmax r (Or.inl rfl) hrc
      · exact hmax r (Or.inr hm) hrc
    · rw [hkinto]
      split_ifs with hz
      · exact le_min (by omega) (by omega)
      · exact le_refl 0
    · rw [hkinto]
      split_ifs with hz
      · exact min_le_right _ _
      · exact hnn
    · intro hterm
      rw [hkinto, hterm]
      simp

/-- C9 counterexample: at total score −1 the code returns a NEGATIVE
progress-into-level (the clamp is `min` only), refuting "for every integer
total score ... never negative". -/
theorem claim_C9_counterexample :
    (gdA.king_progress_from_total_xp (-1)).xp_into_level < 0 := by decide

/-- C9 witness: the amended claim at total score 30 on the modelled
curve. -/
theorem claim_C9_witness :
    GameData.chosen_row gdA 30 ∈ gdA.king_levels ∧
    0 ≤ (gdA.king_progress_from_total_xp 30).xp_into_level ∧
    (gdA.king_progress_from_total_xp 30).xp_into_level ≤
      (GameData.chosen_row gdA 30).xp_to_next.getD 0 := by
  have h := claim_C9 gdA 30 (by decide)
    (List.Chain.cons (by decide) (List.Chain.cons (by decide) List.Chain.nil))
    (List.Chain.cons (by decide) (List.Chain.cons (by decide) List.Chain.nil))
    (fun r0 hr0 => by rw [← Option.some_inj.mp hr0])
    (by decide) (by decide)
  exact ⟨h.1, h.2.2.2.2.1, h.2.2.2.2.2.1⟩

theorem floor_five_halves : ⌊(5 : ℚ) / 2⌋ = 2 := by
  rw [Int.floor_eq_iff]
  constructor
  · norm_num
  · norm_num

theorem floor_seven_halves : ⌊(7 : ℚ) / 2⌋ = 3 := by
  rw [Int.floor_eq_iff]
  constructor
  · norm_num
  · norm_num

theorem roundHalfEven_five_halves : roundHalfEven ((5 : ℚ) / 2) = 2 := by
  unfold roundHalfEven
  dsimp only
  rw [floor_five_halves]
  norm_num

theorem roundHalfEven_seven_halves : roundHalfEven ((7 : ℚ) / 2) = 4 := by
  unfold roundHalfEven
  dsimp only
  rw [floor_seven_halves]
  norm_num

theorem buildCandidateWith_gems_eq {eff : ℤ → ℤ → ℤ → ℤ → ℤ → ℚ} {gd : GameData}
    {s : OptimizationSettings} {st : OptState} {i : ℕ} {card : Card}
    {c : UpgradeCandidate}
    (h : buildCandidateWith eff gd s st i card = some c) :
    ∃ req, gd.get_material_requirement card.rarity (card.level + 1) = some req ∧
      c.gems_used = gemsUsedFor gd card.rarity
        (req - min card.count req -
          min (req - min card.count req) (st.available_wild card.rarity)) := by
  unfold buildCandidateWith Card.next_level at h
  by_cases hl : card.level ≥ 16
  · simp [hl] at h
  · rw [if_neg hl] at h
    dsimp only at h
    rcases hreq : gd.get_material_requirement card.rarity (card.level + 1) with _ | req
    · rw [hreq] at h; simp at h
    rcases hgold : gd.get_gold_cost (card.level + 1) with _ | gold
    · rw [hreq, hgold] at h; simp at h
    rcases hxp : gd.get_xp_reward (card.level + 1) with _ | xp
    · rw [hreq, hgold, hxp] at h; simp at h
    rw [hreq, hgold, hxp] at h
    dsimp only at h
    split_ifs at h with h1 h2 h3 h4
    all_goals
      rw [Option.some_inj] at h
      subst h
      exact ⟨req, rfl, rfl⟩

/-- C10 (confirmed): when owned units plus available universal tokens do
not cover the requirement and currency-B spending is on, the candidate's
currency-B cost is the shortfall times the category rate rounded to the
nearest integer with ties to the even neighbour — so a product with
fractional part exactly 0.5 can round down (5/2 ↦ 2 while 7/2 ↦ 4). -/
theorem claim_C10 (eff : ℤ → ℤ → ℤ → ℤ → ℤ → ℚ) (gd : GameData)
    (s : OptimizationSettings) (st : OptState) (i : ℕ) (card : Card) (req : ℤ)
    (hreq : gd.get_material_requirement card.rarity (card.level + 1) = some req)
    (hshort : card.count + st.available_wild card.rarity < req)
    (huse : s.use_gems = true) :
    (∀ c, buildCandidateWith eff gd s st i card = some c →
      c.gems_used = roundHalfEven
        (((req - card.count - st.available_wild card.rarity : ℤ) : ℚ) *
          gd.gem_value_for_rarity card.rarity)) ∧
    roundHalfEven ((5 : ℚ) / 2) = 2 ∧ roundHalfEven ((7 : ℚ) / 2) = 4 := by
  refine ⟨?_, roundHalfEven_five_halves, roundHalfEven_seven_halves⟩
  intro c hb
  obtain ⟨req', hreq', hgeq⟩ := buildCandidateWith_gems_eq hb
  rw [hreq] at hreq'
  obtain rfl : req = req' := Option.some_inj.mp hreq'
  have havail : 0 ≤ st.available_wild card.rarity := le_max_left _ _
  have hm1 : min card.count req = card.count := min_eq_left (by omega)
  rw [hgeq, hm1]
  have hm2 : min (req - card.count) (st.available_wild card.rarity) =
    st.available_wild card.rarity := min_eq_right (by omega)
  rw [hm2]
  unfold gemsUsedFor
  rw [if_pos (by omega)]

/-- C10 witness: a shortfall of one unit at rate 5/2 is charged 2 gems —
the half-integer product rounded down to the even neighbour. -/
theorem claim_C10_witness :
    gdB.get_material_requirement "Common" (1 + 1) = some 1 ∧
    (0 : ℤ) + (initState gdB playerShort).available_wild "Common" < 1 ∧
    sUseGems.use_gems = true ∧
    ((Level16Optimizer.build_candidate gdB sUseGems (initState gdB playerShort) 0
        { name := "Y", rarity := "Common", level := 1, count := 0 }).map
      (fun c => c.gems_used)) =
      some (roundHalfEven
        (((1 - 0 - (initState gdB playerShort).available_wild "Common" : ℤ) : ℚ) *
          gdB.gem_value_for_rarity "Common")) ∧
    roundHalfEven
      (((1 - 0 - (initState gdB playerShort).available_wild "Common" : ℤ) : ℚ) *
        gdB.gem_value_for_rarity "Common") = 2 := by
  have hrate : gdB.gem_value_for_rarity "Common" = 5 / 2 := rfl
  have htgt : roundHalfEven
      (((1 - 0 - (initState gdB playerShort).available_wild "Common" : ℤ) : ℚ) *
        gdB.gem_value_for_rarity "Common") = 2 := by
    rw [show ((1 - 0 - (initState gdB playerShort).available_wild "Common" : ℤ)) = (1 : ℤ)
      from by decide]
    rw [hrate]
    rw [show ((1 : ℤ) : ℚ) * (5 / 2) = (5 : ℚ) / 2 from by norm_num]
    exact roundHalfEven_five_halves
  have hgU : gemsUsedFor gdB "Common"
      (1 - min (0 : ℤ) 1 -
        min ((1 : ℤ) - min (0 : ℤ) 1) ((initState gdB playerShort).available_wild "Common")) =
      2 := by
    rw [show (1 - min (0 : ℤ) 1 -
        min ((1 : ℤ) - min (0 : ℤ) 1) ((initState gdB playerShort).available_wild "Common")) =
      (1 : ℤ) from by decide]
    unfold gemsUsedFor
    rw [if_pos (by norm_num)]
    rw [hrate]
    rw [show ((1 : ℤ) : ℚ) * (5 / 2) = (5 : ℚ) / 2 from by norm_num]
    exact roundHalfEven_five_halves
  have hthm := (claim_C10 (Level16Optimizer.calculate_efficiency gdB) gdB sUseGems
    (initState gdB playerShort) 0 { name := "Y", rarity := "Common", level := 1, count := 0 }
    1 rfl (by decide) rfl).1
  refine ⟨rfl, by decide, rfl, ?_, htgt⟩
  rcases hcb : Level16Optimizer.build_candidate gdB sUseGems (initState gdB playerShort) 0
      { name := "Y", rarity := "Common", level := 1, count := 0 } with _ | c
  · exfalso
    unfold Level16Optimizer.build_candidate buildCandidateWith Card.next_level at hcb
    rw [if_neg (by decide)] at hcb
    dsimp only at hcb
    rw [show gdB.get_material_requirement "Common"
        (({ name := "Y", rarity := "Common", level := 1, count := 0 } : Card).level + 1) =
      some 1 from rfl] at hcb
    rw [show gdB.get_gold_cost
        (({ name := "Y", rarity := "Common", level := 1, count := 0 } : Card).level + 1) =
      some 100 from rfl] at hcb
    rw [show gdB.get_xp_reward
        (({ name := "Y", rarity := "Common", level := 1, count := 0 } : Card).level + 1) =
      some 50 from rfl] at hcb
    dsimp only at hcb
    split_ifs at hcb with h1 h2 h3
    · exact absurd h1 (by decide)
    · exact absurd h2 (by decide)
    · rw [hgU] at h3
      exact absurd h3 (by decide)
  · have hc := hthm c hcb
    rw [Option.map_some', hc]

end Clash
